import Mathlib

/-!
Verification of the tomato template compiler (donjaime/tomato).

The Go sources are shallowly embedded: the parsed HTML tree becomes an
inductive `HtmlNode`, the visitor state `visitorData` is threaded through
explicit state-passing versions of `head`, `tail`, `transferAttrs` and the
depth-first `traverse` from `walk`, and the file-writing layer of
`tomato.go` becomes functions over a functional model of the file system.
-/

namespace Tomato

/-- Special attributes on tomato template elements (constants from the Go source). -/
def FieldRefAttr : String := "_ref"

def MockAttr : String := "_ignorecontent"

def TunnelledIdAttr : String := "_id"

def IdAttr : String := "id"

def DebugIdAttr : String := "debug-id"

def StripMeAttr : String := "_stripme"

/-- `blockedAttrs`: attributes never forwarded into the generated code. -/
def blockedAttrs : List String := [FieldRefAttr, MockAttr]

/-- The node types of `golang.org/x/net/html`. -/
inductive NodeType where
  | ErrorNode
  | TextNode
  | DocumentNode
  | ElementNode
  | CommentNode
  | DoctypeNode
deriving DecidableEq, Repr

/-- An `html.Attribute`: (Namespace, Key, Val). -/
structure HtmlAttribute where
  Namespace : String
  Key : String
  Val : String
deriving DecidableEq, Repr

/-- An `html.Node`: node type, `Data` (tag name or text), attributes, children. -/
inductive HtmlNode where
  | mk : NodeType → String → List HtmlAttribute → List HtmlNode → HtmlNode

mutual

def nodeDecEq : (a b : HtmlNode) → Decidable (a = b)
  | .mk t1 d1 a1 c1, .mk t2 d2 a2 c2 =>
    if ht : t1 = t2 then
      if hd : d1 = d2 then
        if ha : a1 = a2 then
          match nodeListDecEq c1 c2 with
          | isTrue hc => isTrue (by rw [ht, hd, ha, hc])
          | isFalse hc => isFalse (by intro h; cases h; exact hc rfl)
        else isFalse (by intro h; cases h; exact ha rfl)
      else isFalse (by intro h; cases h; exact hd rfl)
    else isFalse (by intro h; cases h; exact ht rfl)

def nodeListDecEq : (as bs : List HtmlNode) → Decidable (as = bs)
  | [], [] => isTrue rfl
  | [], _ :: _ => isFalse (by intro h; cases h)
  | _ :: _, [] => isFalse (by intro h; cases h)
  | x :: xs, y :: ys =>
    match nodeDecEq x y with
    | isTrue h1 =>
      match nodeListDecEq xs ys with
      | isTrue h2 => isTrue (by rw [h1, h2])
      | isFalse h2 => isFalse (by intro h; cases h; exact h2 rfl)
    | isFalse h1 => isFalse (by intro h; cases h; exact h1 rfl)

end

instance : DecidableEq HtmlNode := nodeDecEq

def HtmlNode.type : HtmlNode → NodeType
  | .mk t _ _ _ => t

def HtmlNode.data : HtmlNode → String
  | .mk _ d _ _ => d

def HtmlNode.attr : HtmlNode → List HtmlAttribute
  | .mk _ _ a _ => a

def HtmlNode.children : HtmlNode → List HtmlNode
  | .mk _ _ _ c => c

/-! ### Basic string utilities mirroring the Go standard library -/

/-- Right-fold concatenation of a list of strings. -/
def concatStrs : List String → String
  | [] => ""
  | s :: rest => s ++ concatStrs rest

/-- Go `strings.ToLower` restricted to ASCII letters: the markup parser has
already lowercased tag names, and every tag compared against is ASCII. -/
def toLowerStr (s : String) : String :=
  ⟨s.data.map Char.toLower⟩

/-- The single-quote character (U+0027). -/
def squote : Char := Char.ofNat 39

/-- The newline character. -/
def newlineChar : Char := Char.ofNat 10

/-- `escapeText` from the source: `strings.Replace(text, "'", "\\'", -1)`.
With a one-character pattern, replacing every occurrence is per-character
expansion of each single quote into backslash-quote. -/
def escapeText (text : String) : String :=
  ⟨text.data.foldr (fun c acc => if c = squote then '\\' :: squote :: acc else c :: acc) []⟩

/-- `strings.Replace(s, "\n", "", -1)`: with a one-character pattern and empty
replacement this deletes every newline character. -/
def stripNewlines (s : String) : String :=
  ⟨s.data.filter (fun c => c ≠ newlineChar)⟩

/-- Go `unicode.IsSpace`: the Unicode White_Space property. -/
def goIsSpace (r : Char) : Bool :=
  let n := r.toNat
  (9 ≤ n && n ≤ 13) || n == 32 || n == 0x85 || n == 0xA0 || n == 0x1680 ||
  (0x2000 ≤ n && n ≤ 0x200A) || n == 0x2028 || n == 0x2029 ||
  n == 0x202F || n == 0x205F || n == 0x3000

/-- The trimming predicate `f` used in `head`'s text-node branch:
NBSP (U+00A0) is never trimmable, everything else defers to `unicode.IsSpace`. -/
def trimTextPred (r : Char) : Bool :=
  if r.toNat == 0xA0 then false else goIsSpace r

/-- Go `strings.TrimFunc`: drop leading and trailing runes satisfying `f`. -/
def trimFunc (s : String) (f : Char → Bool) : String :=
  ⟨((s.data.dropWhile f).reverse.dropWhile f).reverse⟩

/-- Index (in runes) of the last occurrence of `sub` in `s`; `none` when `sub`
does not occur.  Models Go `strings.LastIndex` returning `-1` for no
occurrence.  (Both delimiters searched for in this development are ASCII, so
occurrence positions and the extracted substrings agree with Go's byte-level
indices.) -/
def lastIndexChar (s sub : List Char) : Option Nat :=
  ((List.range (s.length + 1)).filter (fun i => sub.isPrefixOf (s.drop i))).getLast?

/-- Remove the first (leftmost) occurrence of the nonempty pattern `pat`,
modelling Go `strings.Replace(s, pat, "", 1)`. -/
def removeFirst : List Char → List Char → List Char
  | [], _ => []
  | c :: rest, pat =>
    if pat.isPrefixOf (c :: rest) then (c :: rest).drop pat.length
    else c :: removeFirst rest pat

/-- Upcase the first character: `strings.ToUpper(s[0:1]) + s[1:]`. -/
def upcaseFirst (s : String) : String :=
  match s.data with
  | [] => ""
  | c :: rest => ⟨c.toUpper :: rest⟩

/-- `getViewName` from the source: strip everything up to the last `/`, delete
the first occurrence of `.htmto`, append `View`, and upcase the first letter. -/
def getViewName (fileName : String) : String :=
  let slashStart : Nat :=
    match lastIndexChar fileName.data ['/'] with
    | none => 0
    | some i => i + 1
  let viewName : String := ⟨fileName.data.drop slashStart⟩
  let viewName := (⟨removeFirst viewName.data ".htmto".data⟩ : String) ++ "View"
  upcaseFirst viewName

/-- `debugIdFromViewName`: the view name minus the trailing `"View"`. -/
def debugIdFromViewName (viewName : String) : String :=
  ⟨viewName.data.take (viewName.data.length - 4)⟩

/-- `indent(depth)`: a newline followed by `2*depth + 4` spaces. -/
def indent (depth : Nat) : String :=
  let rec spaces : Nat → String
    | 0 => "  "
    | n + 1 => spaces n ++ "  "
  "\n  " ++ spaces depth

/-- `contains(arr, val)` from the source. -/
def containsStr (arr : List String) (val : String) : Bool :=
  arr.any (fun item => item == val)

/-- `getAttr`: the value of the first attribute whose key matches, or `""`. -/
def getAttr (node : HtmlNode) (attr : String) : String :=
  match node.attr.find? (fun item => item.Key == attr) with
  | some item => item.Val
  | none => ""

/-- `hasAttr`: true when `getAttr` is nonempty (the source's definition). -/
def hasAttr (node : HtmlNode) (attr : String) : Bool :=
  getAttr node attr != ""

/-- The string a single `emitAttr` call appends to the construction buffer. -/
def emitAttrStr (ns key val : String) : String :=
  let key := if ns != "" then ns ++ ":" ++ key else key
  ".setAttr('" ++ key ++ "', '" ++ escapeText val ++ "')"

/-! ### Visitor state -/

/-- `GeneratorOptions` from the source. -/
structure GeneratorOptions where
  ViewBaseClass : String
  ViewFactory : String
  ImportLocation : String
deriving DecidableEq, Repr

/-- `visitorData`: the per-file traversal state.  The string builders become
plain strings; `refs` (a `list.List` pushed at the back) becomes a list in
push order; `appendStack` (pushed/popped at the back) is kept with its top
(Go's `Back()`) at the *head* of the list. -/
structure visitorData where
  opts : GeneratorOptions
  cssText : String
  viewName : String
  output : String
  domConstruction : String
  ignoreSubtree : Bool
  forceDebugIds : Bool
  refs : List String
  appendStack : List HtmlNode
deriving DecidableEq

/-- The error produced for a `tomato` element whose `src` lookup is empty. -/
def errNoSrc : String := "Tomato element with no 'src' attribute!"

/-- One step of the `transferAttrs` loop body. -/
def transferAttrStep (node : HtmlNode) (v : visitorData) (attr : HtmlAttribute) : visitorData :=
  if containsStr blockedAttrs attr.Key || (toLowerStr node.data == "tomato" && attr.Key == "src") then v
  else
    let key := if TunnelledIdAttr == attr.Key then IdAttr else attr.Key
    { v with domConstruction := v.domConstruction ++ emitAttrStr attr.Namespace key attr.Val }

/-- `transferAttrs` from the source: fold the loop body over the node's
attributes in order. -/
def transferAttrs (v : visitorData) (node : HtmlNode) : visitorData :=
  node.attr.foldl (transferAttrStep node) v

/-- `head`: the visitor's pre-order step, mirroring the Go source line by line. -/
def head (v : visitorData) (node : HtmlNode) (depth : Nat) : Except String visitorData :=
  if v.ignoreSubtree then .ok v
  else
    match node.type with
    | .ElementNode =>
      let tagName := toLowerStr node.data
      let v := { v with domConstruction := v.domConstruction ++ indent depth }
      if depth == 0 then
        let v := { v with domConstruction :=
          v.domConstruction ++ "super(doc.createElement('" ++ tagName ++ "'));\n" ++ indent depth ++ "this" }
        let v := if v.forceDebugIds && !(hasAttr node DebugIdAttr) then
            { v with domConstruction :=
              v.domConstruction ++ emitAttrStr "" DebugIdAttr (debugIdFromViewName v.viewName) }
          else v
        .ok (transferAttrs v node)
      else
        let v := { v with appendStack := node :: v.appendStack,
                          domConstruction := v.domConstruction ++ ".append(" }
        let fieldName := getAttr node FieldRefAttr
        let hasFieldName := fieldName != ""
        let v := if hasFieldName then
            { v with domConstruction := v.domConstruction ++ "this." ++ fieldName ++ " = " }
          else v
        if tagName == "tomato" then
          let v := { v with ignoreSubtree := true }
          let src := getAttr node "src"
          if src == "" then .error errNoSrc
          else
            let viewName := getViewName src
            let v := { v with domConstruction :=
              v.domConstruction ++ "<" ++ viewName ++ ">new " ++ viewName ++ "(doc)" }
            let v := if hasFieldName then { v with refs := v.refs ++ [fieldName ++ ": " ++ viewName] } else v
            .ok (transferAttrs v node)
        else
          let v := { v with domConstruction :=
            v.domConstruction ++ v.opts.ViewFactory ++ "('" ++ tagName ++ "', doc)" }
          let v := if hasFieldName then
              { v with refs := v.refs ++ [fieldName ++ ": " ++ v.opts.ViewBaseClass] }
            else v
          .ok (transferAttrs v node)
    | .TextNode =>
      if trimFunc node.data trimTextPred != "" then
        .ok { v with domConstruction :=
          v.domConstruction ++ ".appendText('" ++ escapeText (stripNewlines node.data) ++ "')" }
      else .ok v
    | _ => .ok v

/-- `tail`: the visitor's post-order step.  Go compares the stack top with the
node by pointer identity; here stack entries are always proper ancestors of
(or equal to) the visited node, so structural equality coincides with it. -/
def tail (v : visitorData) (node : HtmlNode) (_depth : Nat) : visitorData :=
  match v.appendStack with
  | [] => v
  | top :: rest =>
    if top = node then
      { v with appendStack := rest,
               domConstruction := v.domConstruction ++ ")",
               ignoreSubtree := false }
    else v

mutual

/-- The depth-first `traverse` closure inside `walk`. -/
def traverse (v : visitorData) (n : HtmlNode) (depth : Nat) : Except String visitorData :=
  match n with
  | .mk _ _ _ cs =>
    match head v n depth with
    | .error e => .error e
    | .ok v1 =>
      match traverseChildren v1 cs (depth + 1) with
      | .error e => .error e
      | .ok v2 => .ok (tail v2 n depth)

/-- Sequential traversal of a child list, threading the visitor state. -/
def traverseChildren (v : visitorData) : List HtmlNode → Nat → Except String visitorData
  | [], _ => .ok v
  | c :: cs, depth =>
    match traverse v c depth with
    | .error e => .error e
    | .ok v1 => traverseChildren v1 cs depth

end

/-! ### Loader: root resolution and style slurping -/

mutual

/-- `findRoot`: the first child of the first node (in document order) whose
`Data` is `"body"`; searching continues elsewhere when that child is absent. -/
def findRoot : HtmlNode → Option HtmlNode
  | .mk _ d _ children =>
    if d == "body" then children.head?
    else findRootChildren children

def findRootChildren : List HtmlNode → Option HtmlNode
  | [] => none
  | c :: cs =>
    match findRoot c with
    | some r => some r
    | none => findRootChildren cs

end

/-- `firstNonWhiteSpaceChild`: first element child, or the node itself. -/
def firstNonWhiteSpaceChild (n : HtmlNode) : HtmlNode :=
  match n.children.find? (fun c => c.type == NodeType.ElementNode) with
  | some c => c
  | none => n

/-- `strip`: unwrap a root carrying the `_stripme` marker (and a further
`tbody` level), modelling Go's nil-able `*html.Node` with `Option`. -/
def strip : Option HtmlNode → Option HtmlNode
  | none => none
  | some rootElem =>
    if rootElem.attr.any (fun a => a.Key == StripMeAttr) then
      let c := firstNonWhiteSpaceChild rootElem
      if c.data == "tbody" then some (firstNonWhiteSpaceChild c)
      else some c
    else some rootElem

/-- The tail of `walk`: resolve the root via `findRoot` and `strip`, then run
the traversal from depth 0; a missing root is the `Template cannot be empty`
error that Go's `traverse` raises on a nil node. -/
def walkRoot (fileName : String) (v : visitorData) (root : Option HtmlNode) : Except String visitorData :=
  match strip root with
  | none => .error ("Template cannot be empty: " ++ fileName)
  | some r => traverse v r 0

/-- `walk` on an already-parsed document tree (the parser itself is the
out-of-scope external collaborator). -/
def walkDoc (fileName : String) (v : visitorData) (doc : HtmlNode) : Except String visitorData :=
  walkRoot fileName v (findRoot doc)

/-- The delimiters of the style block. -/
def styleOpen : List Char := "<style>".data

def styleClose : List Char := "</style>".data

/-- The CSS-slurping prefix of `walk`, on the raw file text: take the last
occurrences of the two delimiters; when both exist, Go slices
`contents[start+7 : end]`, which panics (`none` here) when `start+7 > end`.
Returns the remaining markup and the extracted style text, if any. -/
def slurpCss (contents : List Char) : Option (List Char × Option (List Char)) :=
  match lastIndexChar contents styleOpen, lastIndexChar contents styleClose with
  | some start, some stop =>
    if start + styleOpen.length ≤ stop then
      some (contents.take start, some ((contents.take stop).drop (start + styleOpen.length)))
    else none
  | _, _ => some (contents, none)

/-! ### View assembly -/

/-- `emitPreamble` of the visitor. -/
def emitPreambleV (v : visitorData) : visitorData :=
  { v with output := v.output ++ "\nexport class " ++ v.viewName ++ " extends " ++ v.opts.ViewBaseClass ++ " \x7b" }

/-- The text `emitElementRefs` appends: one `\n  decl;` per ref, and a final
newline after the last declaration (Go compares list elements by identity, so
exactly the last element triggers it). -/
def refsBlock : List String → String
  | [] => ""
  | [d] => "\n  " ++ d ++ ";" ++ "\n"
  | d :: rest => "\n  " ++ d ++ ";" ++ refsBlock rest

/-- `emitElementRefs` of the visitor. -/
def emitElementRefsV (v : visitorData) : visitorData :=
  { v with output := v.output ++ refsBlock v.refs }

/-- `emitDomConstruction` of the visitor. -/
def emitDomConstructionV (v : visitorData) : visitorData :=
  { v with output := v.output ++ "\n  constructor(doc: Document = document) \x7b" ++ v.domConstruction ++ ";\n  \x7d" }

/-- `emitPostamble` of the visitor. -/
def emitPostambleV (v : visitorData) : visitorData :=
  { v with output := v.output ++ "\n\x7d\n" }

/-- `generateView(v)`: preamble, element refs, constructor, postamble. -/
def generateViewStr (v : visitorData) : String :=
  (emitPostambleV (emitDomConstructionV (emitElementRefsV (emitPreambleV v)))).output

/-- The visitor `generateView` builds before walking a file. -/
def initVisitor (o : GeneratorOptions) (forceDebugIds : Bool) (fileName : String) : visitorData :=
  { opts := o, cssText := "", viewName := getViewName fileName, output := "",
    domConstruction := "", ignoreSubtree := false, forceDebugIds := forceDebugIds,
    refs := [], appendStack := [] }

/-- Compile a resolved root node to the generated view text. -/
def compileRoot (fileName : String) (o : GeneratorOptions) (forceDebugIds : Bool)
    (root : Option HtmlNode) : Except String String :=
  match walkRoot fileName (initVisitor o forceDebugIds fileName) root with
  | .error e => .error e
  | .ok v => .ok (generateViewStr v)

/-! ### Output aggregation and write-if-changed (tomato.go) -/

/-- A per-file generated unit. -/
structure View where
  ViewText : String
  CssText : String
deriving DecidableEq, Repr

/-- `EmitPreamble` of the TypeScript generator. -/
def emitPreambleStr (g : GeneratorOptions) : String :=
  "import \x7b " ++ g.ViewBaseClass ++ ", " ++ g.ViewFactory ++ " \x7d from '" ++ g.ImportLocation ++ "';"

/-- The in-memory text-assembly part of `writeTomatoOutput`: the map of views
is modelled by an enumeration `keys` of its key set (Go map iteration order is
arbitrary) plus the lookup function `views`; the keys are sorted
(`sort.Strings`) and each unit is appended in sorted order.  The TypeScript
generator's `EmitPostamble` appends nothing. -/
def writeTomatoOutputText (g : GeneratorOptions) (keys : List String) (views : String → View) :
    String × String :=
  let sortedKeys := keys.insertionSort (fun a b => a ≤ b)
  let viewText := emitPreambleStr g ++
    concatStrs (sortedKeys.map (fun k => (views k).ViewText ++ "\n\n"))
  let cssText := concatStrs (sortedKeys.map (fun k =>
    if (views k).CssText != "" then (views k).CssText ++ "\n\n" else ""))
  (viewText, cssText)

/-- A functional model of the file system: path to byte content, `none` when
the file cannot be read. -/
def FileSystem : Type := String → Option (List Nat)

/-- `existingFileContentMatches`: unreadable means no match; then the length
check, then the byte-for-byte comparison (`bytes.Compare == 0`). -/
def existingFileContentMatches (fs : FileSystem) (filename : String) (expectedData : List Nat) : Bool :=
  match fs filename with
  | none => false
  | some actualData =>
    if expectedData.length != actualData.length then false
    else expectedData == actualData

/-- Point update of the file-system model. -/
def writeFile (fs : FileSystem) (filename : String) (data : List Nat) : FileSystem :=
  fun f => if f = filename then some data else fs f

/-- `writeFileIfChanged`: skip the write when the existing content matches. -/
def writeFileIfChanged (fs : FileSystem) (filename : String) (data : List Nat) : FileSystem :=
  if existingFileContentMatches fs filename data then fs
  else writeFile fs filename data

/-! ### Claim-shaped companions: the emitted attribute calls as an ordered
list of (key, value) pairs, and the construction code as a token sequence. -/

/-- The ordered (key, value) pairs `transferAttrs` emits for the given
attribute list of a node with the given tag data: blocked keys and `src` on a
`tomato` are dropped, the tunnelled id is renamed, namespaces are prefixed,
and values are escaped like text content. -/
def attrCallsOf (nodeData : String) (attrs : List HtmlAttribute) : List (String × String) :=
  attrs.filterMap (fun attr =>
    if containsStr blockedAttrs attr.Key || (toLowerStr nodeData == "tomato" && attr.Key == "src") then none
    else
      let key := if TunnelledIdAttr == attr.Key then IdAttr else attr.Key
      let key := if attr.Namespace != "" then attr.Namespace ++ ":" ++ key else key
      some (key, escapeText attr.Val))

/-- The attribute-set calls of a node. -/
def attrCalls (node : HtmlNode) : List (String × String) :=
  attrCallsOf node.data node.attr

/-- Rendering of one attribute-set call. -/
def setAttrCallStr (kv : String × String) : String :=
  ".setAttr('" ++ kv.1 ++ "', '" ++ kv.2 ++ "')"

/-- Rendering of all attribute-set calls of a node. -/
def attrCallsStr (node : HtmlNode) : String :=
  concatStrs ((attrCalls node).map setAttrCallStr)

/-- Tokens of the emitted construction code: an opened `.append(` call, its
closing parenthesis, a field assignment, or any other literal fragment. -/
inductive Tok where
  | openAppend
  | closeAppend
  | fieldAssign (name : String)
  | lit (s : String)
deriving DecidableEq, Repr

/-- The text of a token. -/
def Tok.str : Tok → String
  | .openAppend => ".append("
  | .closeAppend => ")"
  | .fieldAssign name => "this." ++ name ++ " = "
  | .lit s => s

/-- The text of a token sequence. -/
def toksStr (ts : List Tok) : String := concatStrs (ts.map Tok.str)

/-- The fragment `head` appends for a depth-0 element. -/
def rootHeadStr (_o : GeneratorOptions) (vn : String) (fd : Bool) (n : HtmlNode) : String :=
  indent 0 ++ "super(doc.createElement('" ++ toLowerStr n.data ++ "'));\n" ++ indent 0 ++ "this" ++
  (if fd && !(hasAttr n DebugIdAttr) then emitAttrStr "" DebugIdAttr (debugIdFromViewName vn) else "") ++
  attrCallsStr n

mutual

/-- The token sequence a successful un-suppressed traversal of `n` at `depth`
appends to the construction buffer. -/
def nodeToks (o : GeneratorOptions) (vn : String) (fd : Bool) : HtmlNode → Nat → List Tok
  | n@(.mk .ElementNode dataStr _ children), depth =>
    let tag := toLowerStr dataStr
    if depth == 0 then
      Tok.lit (rootHeadStr o vn fd n) :: childToks o vn fd children 1
    else
      let fieldName := getAttr n FieldRefAttr
      let fieldToks := if fieldName == "" then [] else [Tok.fieldAssign fieldName]
      if tag == "tomato" then
        let viewName := getViewName (getAttr n "src")
        [Tok.lit (indent depth), Tok.openAppend] ++ fieldToks ++
          [Tok.lit ("<" ++ viewName ++ ">new " ++ viewName ++ "(doc)" ++ attrCallsStr n),
           Tok.closeAppend]
      else
        [Tok.lit (indent depth), Tok.openAppend] ++ fieldToks ++
          [Tok.lit (o.ViewFactory ++ "('" ++ tag ++ "', doc)" ++ attrCallsStr n)] ++
          childToks o vn fd children (depth + 1) ++ [Tok.closeAppend]
  | .mk .TextNode dataStr _ children, depth =>
    (if trimFunc dataStr trimTextPred == "" then []
     else [Tok.lit (".appendText('" ++ escapeText (stripNewlines dataStr) ++ "')")]) ++
    childToks o vn fd children (depth + 1)
  | .mk _ _ _ children, depth => childToks o vn fd children (depth + 1)

def childToks (o : GeneratorOptions) (vn : String) (fd : Bool) : List HtmlNode → Nat → List Tok
  | [], _ => []
  | c :: cs, depth => nodeToks o vn fd c depth ++ childToks o vn fd cs depth

end

mutual

/-- Whether an un-suppressed traversal of `n` at `depth` succeeds: the only
error source is a `tomato` element (below the root) whose `src` lookup is
empty; a tomato's own subtree is suppressed and cannot fail. -/
def subtreeOk : HtmlNode → Nat → Bool
  | n@(.mk .ElementNode dataStr _ children), depth =>
    if depth == 0 then childrenOk children 1
    else if toLowerStr dataStr == "tomato" then getAttr n "src" != ""
    else childrenOk children (depth + 1)
  | .mk _ _ _ children, depth => childrenOk children (depth + 1)

def childrenOk : List HtmlNode → Nat → Bool
  | [], _ => true
  | c :: cs, depth => subtreeOk c depth && childrenOk cs depth

end

mutual

/-- The (field name, declared type) pairs queued during an un-suppressed
traversal of `n` at `depth`, in document pre-order: one pair per element node
below the root carrying a nonempty field-reference marker, typed with the
referenced view class for a `tomato` and the base view class otherwise. -/
def nodeRefPairs (o : GeneratorOptions) : HtmlNode → Nat → List (String × String)
  | n@(.mk .ElementNode dataStr _ children), depth =>
    if depth == 0 then childRefPairs o children 1
    else
      let f := getAttr n FieldRefAttr
      if toLowerStr dataStr == "tomato" then
        if f != "" then [(f, getViewName (getAttr n "src"))] else []
      else
        (if f != "" then [(f, o.ViewBaseClass)] else []) ++ childRefPairs o children (depth + 1)
  | .mk _ _ _ children, depth => childRefPairs o children (depth + 1)

def childRefPairs (o : GeneratorOptions) : List HtmlNode → Nat → List (String × String)
  | [], _ => []
  | c :: cs, depth => nodeRefPairs o c depth ++ childRefPairs o cs depth

end

/-- Rendering of a queued field reference as pushed onto `refs`. -/
def renderRef (p : String × String) : String := p.1 ++ ": " ++ p.2

mutual

/-- No node in this subtree has `Data` equal to `"body"`. -/
def noBodyData : HtmlNode → Bool
  | .mk _ d _ cs => d != "body" && noBodyDataList cs

def noBodyDataList : List HtmlNode → Bool
  | [] => true
  | c :: cs => noBodyData c && noBodyDataList cs

end

/-- Parenthesis checking over the construction tokens: thread a counter of
currently open `.append(` calls; a close with no open fails.  `balCheck ts 0 =
some 0` says every opened append-call is closed exactly once, well nested. -/
def balCheck : List Tok → Nat → Option Nat
  | [], k => some k
  | .openAppend :: rest, k => balCheck rest (k + 1)
  | .closeAppend :: rest, k => if k = 0 then none else balCheck rest (k - 1)
  | _ :: rest, k => balCheck rest k

/-- Sample generator options (the CLI defaults). -/
def sampleOpts : GeneratorOptions :=
  { ViewBaseClass := "View", ViewFactory := "createView", ImportLocation := "../ts/src/view" }

/-- A fresh visitor for a sample file. -/
def sampleVisitor : visitorData := initVisitor sampleOpts false "foo.htmto"

instance {α β : Type} [DecidableEq α] [DecidableEq β] : DecidableEq (Except α β) :=
  fun a b =>
    match a, b with
    | .ok x, .ok y =>
      if h : x = y then isTrue (by rw [h]) else isFalse (by intro hh; cases hh; exact h rfl)
    | .error x, .error y =>
      if h : x = y then isTrue (by rw [h]) else isFalse (by intro hh; cases hh; exact h rfl)
    | .ok _, .error _ => isFalse (by intro h; cases h)
    | .error _, .ok _ => isFalse (by intro h; cases h)

/-! ## Helper lemmas -/

mutual

theorem findRoot_none (n : HtmlNode) (h : noBodyData n = true) : findRoot n = none := by
  match n with
  | .mk t d a cs =>
    simp [noBodyData] at h
    simp [findRoot, h.1]
    exact findRootChildren_none cs h.2

theorem findRootChildren_none (cs : List HtmlNode) (h : noBodyDataList cs = true) :
    findRootChildren cs = none := by
  match cs with
  | [] => rfl
  | c :: rest =>
    simp [noBodyDataList] at h
    simp [findRootChildren, findRoot_none c h.1]
    exact findRootChildren_none rest h.2

end

theorem concatStrs_append (l1 l2 : List String) :
    concatStrs (l1 ++ l2) = concatStrs l1 ++ concatStrs l2 := by
  induction l1 with
  | nil => simp [concatStrs]
  | cons x xs ih => simp [concatStrs, ih, String.append_assoc]

theorem toksStr_append (t1 t2 : List Tok) :
    toksStr (t1 ++ t2) = toksStr t1 ++ toksStr t2 := by
  simp [toksStr, concatStrs_append]

theorem emitAttrStr_eq (ns key val : String) :
    emitAttrStr ns key val =
      setAttrCallStr ((if ns != "" then ns ++ ":" ++ key else key), escapeText val) := by
  simp only [emitAttrStr, setAttrCallStr]

/-- The `transferAttrs` loop over any attribute list appends exactly the
rendered attribute-call list. -/
theorem transferAttrs_fold (node : HtmlNode) :
    ∀ (attrs : List HtmlAttribute) (v : visitorData),
      attrs.foldl (transferAttrStep node) v =
        { v with domConstruction := v.domConstruction ++
            concatStrs ((attrCallsOf node.data attrs).map setAttrCallStr) }
  | [], v => by simp [attrCallsOf, concatStrs]
  | a :: rest, v => by
    rw [List.foldl_cons, transferAttrs_fold node rest]
    cases hc : (containsStr blockedAttrs a.Key ||
        (toLowerStr node.data == "tomato" && a.Key == "src")) with
    | true =>
      simp at hc
      simp [transferAttrStep, attrCallsOf, List.filterMap_cons, hc]
    | false =>
      simp at hc
      have h2 : ¬(toLowerStr node.data = "tomato" ∧ a.Key = "src") :=
        fun hx => hc.2 hx.1 hx.2
      simp [transferAttrStep, attrCallsOf, List.filterMap_cons, hc, h2,
        emitAttrStr, setAttrCallStr, String.append_assoc, concatStrs]

/-- C3 core: `transferAttrs` appends the rendered calls of `attrCalls`. -/
theorem transferAttrs_spec (v : visitorData) (node : HtmlNode) :
    transferAttrs v node =
      { v with domConstruction := v.domConstruction ++ attrCallsStr node } := by
  rw [transferAttrs, transferAttrs_fold, attrCallsStr, attrCalls]

/-- On a `tomato`-tagged node the attribute-call list ignores every `src`
attribute: dropping them from the input changes nothing. -/
theorem attrCallsOf_drop_src (d : String) (hd : toLowerStr d = "tomato")
    (attrs : List HtmlAttribute) :
    attrCallsOf d attrs = attrCallsOf d (attrs.filter (fun a => a.Key != "src")) := by
  induction attrs with
  | nil => rfl
  | cons a rest ih =>
    by_cases hk : a.Key = "src"
    · simp [attrCallsOf, List.filterMap_cons, hd, hk] at ih ⊢
      exact ih
    · simp [attrCallsOf, List.filterMap_cons, hk] at ih ⊢
      by_cases hb : containsStr blockedAttrs a.Key = true
      · simp [hb] at ih ⊢
        exact ih
      · simp [hb, hk] at ih ⊢
        exact ih

/-! ## Claims -/

/-- **C3.** For every element node, attribute transfer appends exactly one
attribute-set call per attribute in the node's original order, as described by
`attrCallsOf`: keys in the block-list (`_ref`, `_ignorecontent`) are dropped,
`src` is dropped when the tag is `tomato`, the tunnelled `_id` is emitted as
`id`, a namespaced attribute's key is prefixed with `namespace:`, and every
value is escaped exactly as text-node content is. -/
theorem claim_C3_attr_transfer (v : visitorData) (node : HtmlNode) :
    transferAttrs v node =
      { v with domConstruction := v.domConstruction ++
          concatStrs ((attrCallsOf node.data node.attr).map setAttrCallStr) } :=
  transferAttrs_spec v node

/-- **C1 (amended).** For a `tomato`-tagged element node visited at depth > 0
with the suppression flag clear: if the `src` attribute lookup is empty
(absent *or* present with empty value) the visitor returns the
`ReferenceError`; if it is nonempty the construction buffer receives the
instantiation expression of the derived class name `getViewName src` and no
attribute-set call is emitted for the `src` attribute itself. -/
theorem claim_C1_nested_template (v : visitorData) (d : String)
    (attrs : List HtmlAttribute) (children : List HtmlNode) (depth : Nat)
    (hflag : v.ignoreSubtree = false) (hd : toLowerStr d = "tomato") (hdep : depth ≠ 0) :
    (getAttr (HtmlNode.mk .ElementNode d attrs children) "src" = "" →
      head v (HtmlNode.mk .ElementNode d attrs children) depth = .error errNoSrc) ∧
    (∀ src, getAttr (HtmlNode.mk .ElementNode d attrs children) "src" = src → src ≠ "" →
      getAttr (HtmlNode.mk .ElementNode d attrs children) FieldRefAttr = "" →
      head v (HtmlNode.mk .ElementNode d attrs children) depth = .ok
        { v with
          appendStack := HtmlNode.mk .ElementNode d attrs children :: v.appendStack,
          ignoreSubtree := true,
          domConstruction := v.domConstruction ++ indent depth ++ ".append(<" ++
            getViewName src ++ ">new " ++ getViewName src ++ "(doc)" ++
            attrCallsStr (HtmlNode.mk .ElementNode d attrs children) }) ∧
    (∀ src fieldName, getAttr (HtmlNode.mk .ElementNode d attrs children) "src" = src → src ≠ "" →
      getAttr (HtmlNode.mk .ElementNode d attrs children) FieldRefAttr = fieldName → fieldName ≠ "" →
      head v (HtmlNode.mk .ElementNode d attrs children) depth = .ok
        { v with
          appendStack := HtmlNode.mk .ElementNode d attrs children :: v.appendStack,
          ignoreSubtree := true,
          domConstruction := v.domConstruction ++ indent depth ++ ".append(this." ++
            fieldName ++ " = <" ++ getViewName src ++ ">new " ++ getViewName src ++ "(doc)" ++
            attrCallsStr (HtmlNode.mk .ElementNode d attrs children),
          refs := v.refs ++ [fieldName ++ ": " ++ getViewName src] }) ∧
    attrCallsOf d attrs = attrCallsOf d (attrs.filter (fun a => a.Key != "src")) := by
  refine ⟨?_, ?_, ?_, attrCallsOf_drop_src d hd attrs⟩
  · intro hsrc
    simp [head, hflag, HtmlNode.type, HtmlNode.data, hd, hdep, hsrc]
  · intro src hsrc hne hf
    simp [head, hflag, HtmlNode.type, HtmlNode.data, hd, hdep, hsrc, hne, hf,
      transferAttrs_spec, String.append_assoc]
  · intro src fieldName hsrc hne hf hfne
    simp [head, hflag, HtmlNode.type, HtmlNode.data, hd, hdep, hsrc, hne, hf, hfne,
      transferAttrs_spec, String.append_assoc]

/-- **C1 counterexample.** A `tomato` node whose `src` attribute is *present*
but empty: the attribute is there, yet the visitor errors instead of emitting
an instantiation expression, so "if 'src' is present, the construction buffer
receives an instantiation expression" fails on the code. -/
theorem claim_C1_counterexample :
    (∃ a ∈ (HtmlNode.mk .ElementNode "tomato" [⟨"", "src", ""⟩] []).attr, a.Key = "src") ∧
    head sampleVisitor (HtmlNode.mk .ElementNode "tomato" [⟨"", "src", ""⟩] []) 1 =
      .error errNoSrc := by
  constructor
  · exact ⟨⟨"", "src", ""⟩, by simp [HtmlNode.attr]⟩
  · decide

/-- **C1 witness.** A `tomato` node with `src="bar.htmto"` at depth 1:
the instantiation of `BarView` is emitted and no `setAttr` call for `src`. -/
theorem claim_C1_witness :
    head sampleVisitor (HtmlNode.mk .ElementNode "tomato" [⟨"", "src", "bar.htmto"⟩] []) 1 =
      .ok { sampleVisitor with
            appendStack := [HtmlNode.mk .ElementNode "tomato" [⟨"", "src", "bar.htmto"⟩] []],
            ignoreSubtree := true,
            domConstruction := "\n      .append(<BarView>new BarView(doc)" } ∧
    head sampleVisitor (HtmlNode.mk .ElementNode "tomato" [] []) 1 = .error errNoSrc := by
  constructor
  · have h := (claim_C1_nested_template sampleVisitor "tomato" [⟨"", "src", "bar.htmto"⟩] [] 1
      rfl (by decide) (by decide)).2.1 "bar.htmto" (by decide) (by decide) (by decide)
    rw [h]
    decide
  · exact (claim_C1_nested_template sampleVisitor "tomato" [] [] 1
      rfl (by decide) (by decide)).1 (by decide)

/-- **C2.** A text node visited with the suppression flag clear: blank after
the NBSP-preserving trim means nothing is emitted; otherwise an append-text
call is emitted whose literal is the content with newlines removed and single
quotes escaped. -/
theorem claim_C2_text_nodes (v : visitorData) (dataStr : String)
    (attrs : List HtmlAttribute) (children : List HtmlNode) (depth : Nat)
    (hflag : v.ignoreSubtree = false) :
    (trimFunc dataStr trimTextPred = "" →
      head v (HtmlNode.mk .TextNode dataStr attrs children) depth = .ok v) ∧
    (trimFunc dataStr trimTextPred ≠ "" →
      head v (HtmlNode.mk .TextNode dataStr attrs children) depth =
        .ok { v with domConstruction :=
          v.domConstruction ++ ".appendText('" ++ escapeText (stripNewlines dataStr) ++ "')" }) := by
  constructor <;> intro h <;>
    simp [head, hflag, HtmlNode.type, HtmlNode.data, h, String.append_assoc]

/-- **C4 (amended).** Style slurping takes the last occurrences of `<style>`
and `</style>` in the raw text.  When either is missing the text is parsed
unchanged with no stylesheet.  When both are found and the last `<style>` ends
no later than the last `</style>` begins, the text strictly between them
becomes the style text and is excised.  But when the last `</style>` begins
before the end of the last `<style>`, the slice bounds are inverted and the
extraction panics — it does not succeed for every arrangement. -/
theorem claim_C4_style_extraction (contents : List Char) :
    ((lastIndexChar contents styleOpen = none ∨ lastIndexChar contents styleClose = none) →
      slurpCss contents = some (contents, none)) ∧
    (∀ s e, lastIndexChar contents styleOpen = some s →
      lastIndexChar contents styleClose = some e →
      (s + styleOpen.length ≤ e →
        slurpCss contents =
          some (contents.take s, some ((contents.take e).drop (s + styleOpen.length)))) ∧
      (e < s + styleOpen.length → slurpCss contents = none)) := by
  constructor
  · rintro (h | h)
    · simp [slurpCss, h]
    · cases ho : lastIndexChar contents styleOpen <;> simp [slurpCss, ho, h]
  · intro s e hs he
    constructor <;> intro hle
    · simp [slurpCss, hs, he, hle]
    · simp [slurpCss, hs, he, Nat.not_le_of_lt hle, Nat.not_le.mpr hle]

/-- **C4 counterexample.** A text whose last `</style>` precedes its last
`<style>`: both delimiters are found, yet extraction fails (the Go slice
`contents[start+7:end]` panics), contradicting "never fails for any
arrangement of the two delimiters". -/
theorem claim_C4_counterexample :
    lastIndexChar "</style>x<style>".data styleOpen = some 9 ∧
    lastIndexChar "</style>x<style>".data styleClose = some 0 ∧
    slurpCss "</style>x<style>".data = none := by decide

/-- **C4 witness.** A normal document has its final style block extracted, and
a document with no delimiters is passed through unchanged. -/
theorem claim_C4_witness :
    slurpCss "ab<style>cd</style>".data = some ("ab".data, some "cd".data) ∧
    slurpCss "hello".data = some ("hello".data, none) := by
  constructor
  · have h := ((claim_C4_style_extraction "ab<style>cd</style>".data).2 2 11
      (by decide) (by decide)).1 (by decide)
    rw [h]
    decide
  · exact (claim_C4_style_extraction "hello".data).1 (Or.inl (by decide))

/-- **C5 (amended).** The loader selects as traversal root the *first child
of any node type* (not necessarily an element) of the `body` node, and fails
with the load error when the body has no children at all.  The helper
predicate `noBodyData` states that a subtree contains no node whose `Data` is
`"body"`. -/
theorem claim_C5_root_selection (f : String) (v : visitorData) (hd : HtmlNode)
    (hattrs battrs : List HtmlAttribute) (bkids : List HtmlNode)
    (hnb : noBodyData hd = true) :
    findRoot (HtmlNode.mk .DocumentNode "" []
        [HtmlNode.mk .ElementNode "html" hattrs
          [hd, HtmlNode.mk .ElementNode "body" battrs bkids]]) = bkids.head? ∧
    (bkids = [] →
      walkDoc f v (HtmlNode.mk .DocumentNode "" []
        [HtmlNode.mk .ElementNode "html" hattrs
          [hd, HtmlNode.mk .ElementNode "body" battrs bkids]]) =
        .error ("Template cannot be empty: " ++ f)) := by
  have hroot : findRoot (HtmlNode.mk .DocumentNode "" []
      [HtmlNode.mk .ElementNode "html" hattrs
        [hd, HtmlNode.mk .ElementNode "body" battrs bkids]]) = bkids.head? := by
    cases bkids with
    | nil => simp [findRoot, findRootChildren, findRoot_none hd hnb]
    | cons b bs => simp [findRoot, findRootChildren, findRoot_none hd hnb]
  refine ⟨hroot, ?_⟩
  intro hempty
  subst hempty
  simp [walkDoc, walkRoot, hroot, strip]

/-- **C5 counterexample.** A parsed document whose body's first child is a
text node (e.g. the template `hello<div></div>`): the loader roots the
traversal at the text node even though an element child (`div`) exists, so
"selects the first element child of the body" and "always starts on an
element node" fail on the code. -/
theorem claim_C5_counterexample :
    findRoot (HtmlNode.mk .DocumentNode "" []
        [HtmlNode.mk .ElementNode "html" []
          [HtmlNode.mk .ElementNode "head" [] [],
           HtmlNode.mk .ElementNode "body" []
             [HtmlNode.mk .TextNode "hello" [] [],
              HtmlNode.mk .ElementNode "div" [] []]]]) =
      some (HtmlNode.mk .TextNode "hello" [] []) ∧
    (HtmlNode.mk .TextNode "hello" [] []).type ≠ NodeType.ElementNode ∧
    HtmlNode.mk .ElementNode "div" [] [] ∈
      (HtmlNode.mk .ElementNode "body" []
        [HtmlNode.mk .TextNode "hello" [] [],
         HtmlNode.mk .ElementNode "div" [] []]).children ∧
    (HtmlNode.mk .ElementNode "div" [] []).type = NodeType.ElementNode := by
  refine ⟨by decide, by decide, ?_, by decide⟩
  simp [HtmlNode.children]

/-- **C5 witness.** An empty body aborts compilation with the load error. -/
theorem claim_C5_witness :
    walkDoc "empty.htmto" sampleVisitor (HtmlNode.mk .DocumentNode "" []
        [HtmlNode.mk .ElementNode "html" []
          [HtmlNode.mk .ElementNode "head" [] [],
           HtmlNode.mk .ElementNode "body" [] []]]) =
      .error "Template cannot be empty: empty.htmto" := by
  have h := (claim_C5_root_selection "empty.htmto" sampleVisitor
    (HtmlNode.mk .ElementNode "head" [] []) [] [] [] (by decide)).2 rfl
  rw [h]
  decide

/-- **C6.** The final write leaves the existing file untouched exactly when
the new content equals the existing content (the length-then-bytes comparison
decides content equality); differing or unreadable existing content gets the
new content written; and a second identical write changes nothing. -/
theorem claim_C6_write_if_changed (fs : FileSystem) (f : String) (d : List Nat) :
    (existingFileContentMatches fs f d = true ↔ fs f = some d) ∧
    (fs f = some d → writeFileIfChanged fs f d = fs) ∧
    (fs f ≠ some d → writeFileIfChanged fs f d = writeFile fs f d) ∧
    existingFileContentMatches (writeFileIfChanged fs f d) f d = true ∧
    writeFileIfChanged (writeFileIfChanged fs f d) f d = writeFileIfChanged fs f d := by
  have hiff : existingFileContentMatches fs f d = true ↔ fs f = some d := by
    unfold existingFileContentMatches
    cases hf : fs f with
    | none => simp
    | some actual =>
      by_cases hlen : d.length = actual.length
      · simp [hlen]
        exact eq_comm
      · simp [hlen]
        intro h
        subst h
        exact hlen rfl
  have hskip : fs f = some d → writeFileIfChanged fs f d = fs := by
    intro h
    simp [writeFileIfChanged, hiff.mpr h]
  have hwrite : fs f ≠ some d → writeFileIfChanged fs f d = writeFile fs f d := by
    intro h
    have : existingFileContentMatches fs f d = false := by
      cases hm : existingFileContentMatches fs f d
      · rfl
      · exact absurd (hiff.mp hm) h
    simp [writeFileIfChanged, this]
  have hafter : (writeFileIfChanged fs f d) f = some d := by
    by_cases h : fs f = some d
    · rw [hskip h]
      exact h
    · rw [hwrite h]
      simp [writeFile]
  have hmatch2 : existingFileContentMatches (writeFileIfChanged fs f d) f d = true := by
    unfold existingFileContentMatches
    rw [hafter]
    simp
  refine ⟨hiff, hskip, hwrite, hmatch2, ?_⟩
  by_cases h : fs f = some d
  · rw [hskip h, hskip h]
  · rw [hwrite h]
    have hm : existingFileContentMatches (writeFile fs f d) f d = true := by
      unfold existingFileContentMatches
      simp [writeFile]
    simp [writeFileIfChanged, hm]

/-- **C6 witness.** Writing fresh content to a missing file performs the
write, after which the content matches and a repeated write is the identity. -/
theorem claim_C6_witness :
    writeFileIfChanged (fun _ => none) "out.ts" [1, 2, 3] =
      writeFile (fun _ => none) "out.ts" [1, 2, 3] ∧
    existingFileContentMatches
      (writeFileIfChanged (fun _ => none) "out.ts" [1, 2, 3]) "out.ts" [1, 2, 3] = true ∧
    writeFileIfChanged (writeFileIfChanged (fun _ => none) "out.ts" [1, 2, 3]) "out.ts" [1, 2, 3] =
      writeFileIfChanged (fun _ => none) "out.ts" [1, 2, 3] := by
  refine ⟨(claim_C6_write_if_changed (fun _ => none) "out.ts" [1, 2, 3]).2.2.1 ?_,
    (claim_C6_write_if_changed (fun _ => none) "out.ts" [1, 2, 3]).2.2.2.1,
    (claim_C6_write_if_changed (fun _ => none) "out.ts" [1, 2, 3]).2.2.2.2⟩
  intro h
  cases h

/-- **C9 (amended).** A root carrying the `_stripme` marker whose first
element child is a `tbody` whose first element child is the row compiles to
exactly the same generated view text as the template whose literal root is
that row — provided the row itself does not carry the unwrap marker. -/
theorem claim_C9_stripme_equivalence (f : String) (o : GeneratorOptions) (fd : Bool)
    (w t r : HtmlNode)
    (hw : w.attr.any (fun a => a.Key == StripMeAttr) = true)
    (ht : firstNonWhiteSpaceChild w = t)
    (htb : t.data = "tbody")
    (hr : firstNonWhiteSpaceChild t = r)
    (hrn : r.attr.any (fun a => a.Key == StripMeAttr) = false) :
    strip (some w) = some r ∧
    compileRoot f o fd (some w) = compileRoot f o fd (some r) := by
  have h1 : strip (some w) = some r := by
    simp [strip, hw, ht, htb, hr]
  have h2 : strip (some r) = some r := by
    simp [strip, hrn]
  refine ⟨h1, ?_⟩
  simp [compileRoot, walkRoot, h1, h2]

/-- **C9 counterexample.** When the row itself also carries the `_stripme`
marker, the two compilations differ: with the wrapper, `strip` runs once and
stops at the row (whose marker is even emitted as an attribute); with the row
as literal root, `strip` unwraps the row again down to its own first element
child.  The claim as stated quantifies over all such templates and fails
here. -/
theorem claim_C9_counterexample :
    (HtmlNode.mk .ElementNode "table" [⟨"", "_stripme", "1"⟩]
        [HtmlNode.mk .ElementNode "tbody" []
          [HtmlNode.mk .ElementNode "tr" [⟨"", "_stripme", "1"⟩]
            [HtmlNode.mk .ElementNode "td" [] []]]]).attr.any
      (fun a => a.Key == StripMeAttr) = true ∧
    firstNonWhiteSpaceChild (HtmlNode.mk .ElementNode "table" [⟨"", "_stripme", "1"⟩]
        [HtmlNode.mk .ElementNode "tbody" []
          [HtmlNode.mk .ElementNode "tr" [⟨"", "_stripme", "1"⟩]
            [HtmlNode.mk .ElementNode "td" [] []]]]) =
      HtmlNode.mk .ElementNode "tbody" []
        [HtmlNode.mk .ElementNode "tr" [⟨"", "_stripme", "1"⟩]
          [HtmlNode.mk .ElementNode "td" [] []]] ∧
    compileRoot "t.htmto" sampleOpts false
        (some (HtmlNode.mk .ElementNode "table" [⟨"", "_stripme", "1"⟩]
          [HtmlNode.mk .ElementNode "tbody" []
            [HtmlNode.mk .ElementNode "tr" [⟨"", "_stripme", "1"⟩]
              [HtmlNode.mk .ElementNode "td" [] []]]])) ≠
      compileRoot "t.htmto" sampleOpts false
        (some (HtmlNode.mk .ElementNode "tr" [⟨"", "_stripme", "1"⟩]
          [HtmlNode.mk .ElementNode "td" [] []])) := by
  refine ⟨by decide, by decide, by decide⟩

/-- **C9 witness.** A marked `table` wrapper around `tbody` around a plain
`tr` compiles identically to the bare `tr`. -/
theorem claim_C9_witness :
    compileRoot "t.htmto" sampleOpts false
        (some (HtmlNode.mk .ElementNode "table" [⟨"", "_stripme", "1"⟩]
          [HtmlNode.mk .ElementNode "tbody" []
            [HtmlNode.mk .ElementNode "tr" []
              [HtmlNode.mk .ElementNode "td" [] []]]])) =
      compileRoot "t.htmto" sampleOpts false
        (some (HtmlNode.mk .ElementNode "tr" []
          [HtmlNode.mk .ElementNode "td" [] []])) :=
  (claim_C9_stripme_equivalence "t.htmto" sampleOpts false
    (HtmlNode.mk .ElementNode "table" [⟨"", "_stripme", "1"⟩]
      [HtmlNode.mk .ElementNode "tbody" []
        [HtmlNode.mk .ElementNode "tr" [] [HtmlNode.mk .ElementNode "td" [] []]]])
    (HtmlNode.mk .ElementNode "tbody" []
      [HtmlNode.mk .ElementNode "tr" [] [HtmlNode.mk .ElementNode "td" [] []]])
    (HtmlNode.mk .ElementNode "tr" [] [HtmlNode.mk .ElementNode "td" [] []])
    (by decide) (by decide) (by decide) (by decide) (by decide)).2

/-- **C7.** Aggregated output is deterministic and alphabetical: permuting the
discovery order of the per-file units leaves the combined output unchanged,
and for any two paths `p1 < p2` in the unit map, `p1`'s generated view text
precedes `p2`'s in the combined output. -/
theorem claim_C7_sorted_output (g : GeneratorOptions) (keys1 keys2 : List String)
    (views : String → View) (p1 p2 : String)
    (hperm : keys1.Perm keys2) (h1 : p1 ∈ keys1) (h2 : p2 ∈ keys1) (hlt : p1 < p2) :
    writeTomatoOutputText g keys1 views = writeTomatoOutputText g keys2 views ∧
    ∃ a b c, (writeTomatoOutputText g keys1 views).1 =
      emitPreambleStr g ++ (a ++ (((views p1).ViewText ++ "\n\n") ++
        (b ++ (((views p2).ViewText ++ "\n\n") ++ c)))) := by
  have hsorteq : keys1.insertionSort (fun a b => a ≤ b) =
      keys2.insertionSort (fun a b => a ≤ b) :=
    List.eq_of_perm_of_sorted
      ((List.perm_insertionSort _ keys1).trans
        (hperm.trans (List.perm_insertionSort _ keys2).symm))
      (List.sorted_insertionSort _ keys1) (List.sorted_insertionSort _ keys2)
  constructor
  · unfold writeTomatoOutputText
    rw [hsorteq]
  · have hs1 : p1 ∈ keys1.insertionSort (fun a b => a ≤ b) :=
      (List.perm_insertionSort _ keys1).mem_iff.mpr h1
    have hs2 : p2 ∈ keys1.insertionSort (fun a b => a ≤ b) :=
      (List.perm_insertionSort _ keys1).mem_iff.mpr h2
    have hsorted : List.Sorted (· ≤ ·) (keys1.insertionSort (fun a b => a ≤ b)) :=
      List.sorted_insertionSort _ keys1
    obtain ⟨xs, ys, hxy⟩ := List.append_of_mem hs1
    have hp2ys : p2 ∈ ys := by
      rw [hxy] at hs2
      rcases List.mem_append.mp hs2 with hin | hin
      · exfalso
        rw [hxy] at hsorted
        have := (List.pairwise_append.mp hsorted).2.2 p2 hin p1 (List.mem_cons_self p1 ys)
        exact absurd hlt (not_lt.mpr this)
      · rcases List.mem_cons.mp hin with heq | hin2
        · exact absurd (heq ▸ hlt) (lt_irrefl p2)
        · exact hin2
    obtain ⟨us, vs, huv⟩ := List.append_of_mem hp2ys
    refine ⟨concatStrs (xs.map (fun k => (views k).ViewText ++ "\n\n")),
      concatStrs (us.map (fun k => (views k).ViewText ++ "\n\n")),
      concatStrs (vs.map (fun k => (views k).ViewText ++ "\n\n")), ?_⟩
    simp only [writeTomatoOutputText, hxy, huv]
    simp [concatStrs_append, concatStrs, String.append_assoc]

/-- **C7 witness.** Two discovery orders of `{a.tmpl, b.tmpl}` give the same
combined output, with `a.tmpl`'s view text ahead of `b.tmpl`'s. -/
theorem claim_C7_witness :
    writeTomatoOutputText sampleOpts ["b.tmpl", "a.tmpl"]
        (fun k => if k == "a.tmpl" then ⟨"AV", ""⟩ else ⟨"BV", ""⟩) =
      writeTomatoOutputText sampleOpts ["a.tmpl", "b.tmpl"]
        (fun k => if k == "a.tmpl" then ⟨"AV", ""⟩ else ⟨"BV", ""⟩) ∧
    ∃ a b c, (writeTomatoOutputText sampleOpts ["b.tmpl", "a.tmpl"]
        (fun k => if k == "a.tmpl" then ⟨"AV", ""⟩ else ⟨"BV", ""⟩)).1 =
      emitPreambleStr sampleOpts ++ (a ++ ("AV\n\n" ++ (b ++ ("BV\n\n" ++ c)))) := by
  have h := claim_C7_sorted_output sampleOpts ["b.tmpl", "a.tmpl"] ["a.tmpl", "b.tmpl"]
    (fun k => if k == "a.tmpl" then ⟨"AV", ""⟩ else ⟨"BV", ""⟩) "a.tmpl" "b.tmpl"
    (by decide) (by decide) (by decide) (by rw [String.lt_iff_toList_lt]; decide)
  exact h

/-- **C2 witness.** A lone NBSP survives as an append-text call with the NBSP
character; ordinary spaces/tabs/newlines produce nothing. -/
theorem claim_C2_witness :
    head sampleVisitor (HtmlNode.mk .TextNode "\u00A0" [] []) 1 =
      .ok { sampleVisitor with domConstruction := ".appendText('\u00A0')" } ∧
    head sampleVisitor (HtmlNode.mk .TextNode " \t\n" [] []) 1 = .ok sampleVisitor := by
  constructor
  · have h := (claim_C2_text_nodes sampleVisitor "\u00A0" [] [] 1 rfl).2 (by decide)
    rw [h]
    decide
  · exact (claim_C2_text_nodes sampleVisitor " \t\n" [] [] 1 rfl).1 (by decide)

/-! ## The traversal invariant -/

theorem sizeOf_children_lt (t : NodeType) (d : String) (a : List HtmlAttribute)
    (cs : List HtmlNode) (c : HtmlNode) (hc : c ∈ cs) :
    sizeOf c < sizeOf (HtmlNode.mk t d a cs) := by
  have h1 : sizeOf c < sizeOf cs := List.sizeOf_lt_of_mem hc
  have h2 : sizeOf cs < sizeOf (HtmlNode.mk t d a cs) := by
    simp [HtmlNode.mk.sizeOf_spec]
  exact lt_trans h1 h2

theorem ne_of_sizeOf_lt {a b : HtmlNode} (h : sizeOf a < sizeOf b) : b ≠ a := by
  intro he
  rw [he] at h
  exact lt_irrefl _ h

mutual

/-- Inside a suppressed subtree (below a `tomato`) the traversal is inert:
`head` skips, and `tail` pops nothing because the stack top is the `tomato`
node, a strict ancestor of every visited node. -/
theorem traverse_suppressed (n : HtmlNode) (v : visitorData) (depth : Nat)
    (t : HtmlNode) (rest : List HtmlNode)
    (hflag : v.ignoreSubtree = true) (hstack : v.appendStack = t :: rest)
    (hsz : sizeOf n < sizeOf t) :
    traverse v n depth = .ok v := by
  match n with
  | .mk ty d a cs =>
    have hchild : traverseChildren v cs (depth + 1) = .ok v :=
      traverseChildren_suppressed cs v (depth + 1) t rest hflag hstack
        (fun c hc => lt_trans (sizeOf_children_lt ty d a cs c hc) hsz)
    have hne : t ≠ HtmlNode.mk ty d a cs := ne_of_sizeOf_lt hsz
    simp [traverse, head, hflag, hchild, tail, hstack, hne]

theorem traverseChildren_suppressed (cs : List HtmlNode) (v : visitorData) (depth : Nat)
    (t : HtmlNode) (rest : List HtmlNode)
    (hflag : v.ignoreSubtree = true) (hstack : v.appendStack = t :: rest)
    (hsz : ∀ c ∈ cs, sizeOf c < sizeOf t) :
    traverseChildren v cs depth = .ok v := by
  match cs with
  | [] => rfl
  | c :: cs' =>
    have h1 : traverse v c depth = .ok v :=
      traverse_suppressed c v depth t rest hflag hstack (hsz c (List.mem_cons_self c cs'))
    have h2 : traverseChildren v cs' depth = .ok v :=
      traverseChildren_suppressed cs' v depth t rest hflag hstack
        (fun x hx => hsz x (List.mem_cons_of_mem c hx))
    simp [traverseChildren, h1, h2]

end

mutual

/-- The central correspondence between the stateful traversal and the pure
per-node emission functions: starting un-suppressed (with an empty stack at
depth 0, and only element nodes on the stack), a traversal either hits a
`tomato` without `src` and fails, or succeeds having appended exactly the
node's token string to the construction buffer and the node's rendered ref
pairs to the field list — with the append stack restored and the suppression
flag clear. -/
theorem traverse_spec (n : HtmlNode) (v : visitorData) (depth : Nat)
    (hflag : v.ignoreSubtree = false)
    (hstack0 : depth = 0 → v.appendStack = [])
    (hel : ∀ m ∈ v.appendStack, m.type = NodeType.ElementNode) :
    traverse v n depth =
      (if subtreeOk n depth = true then
        .ok { v with
          domConstruction := v.domConstruction ++
            toksStr (nodeToks v.opts v.viewName v.forceDebugIds n depth),
          refs := v.refs ++ (nodeRefPairs v.opts n depth).map renderRef,
          ignoreSubtree := false }
      else .error errNoSrc) := by
  match n with
  | .mk ty d a cs =>
    cases ty with
    | ElementNode =>
      by_cases hdep : depth = 0
      · subst hdep
        have hst : v.appendStack = [] := hstack0 rfl
        have hh : head v (HtmlNode.mk .ElementNode d a cs) 0 = .ok
            { v with domConstruction := v.domConstruction ++
                rootHeadStr v.opts v.viewName v.forceDebugIds (HtmlNode.mk .ElementNode d a cs) } := by
          cases hdbg : (v.forceDebugIds && !(hasAttr (HtmlNode.mk .ElementNode d a cs) DebugIdAttr)) with
          | true =>
            simp [head, HtmlNode.type, HtmlNode.data, hflag, rootHeadStr, hdbg,
              transferAttrs_spec, String.append_assoc]
          | false =>
            simp [head, HtmlNode.type, HtmlNode.data, hflag, rootHeadStr, hdbg,
              transferAttrs_spec, String.append_assoc]
        have hchild := traverseChildren_spec cs
          { v with domConstruction := v.domConstruction ++
              rootHeadStr v.opts v.viewName v.forceDebugIds (HtmlNode.mk .ElementNode d a cs) }
          1 hflag (by decide) (fun m hm => hel m hm)
        rw [hst] at hchild
        cases hco : childrenOk cs 1 with
        | false =>
          rw [hco] at hchild
          simp at hchild
          simp [traverse, HtmlNode.type, HtmlNode.data, hh, hchild, hst, subtreeOk, hco]
        | true =>
          rw [hco] at hchild
          simp at hchild
          simp [traverse, HtmlNode.type, HtmlNode.data, hh, hchild, tail, hst, subtreeOk, hco,
            nodeToks, nodeRefPairs, toksStr, toksStr_append, concatStrs, concatStrs_append, Tok.str, String.append_assoc]
      · by_cases htag : toLowerStr d = "tomato"
        · by_cases hsrc : getAttr (HtmlNode.mk .ElementNode d a cs) "src" = ""
          · have hh : head v (HtmlNode.mk .ElementNode d a cs) depth = .error errNoSrc := by
              simp [head, HtmlNode.type, HtmlNode.data, hflag, hdep, htag, hsrc]
            simp [traverse, HtmlNode.type, HtmlNode.data, hh, subtreeOk, hdep, htag, hsrc]
          · have hchild : ∀ w : visitorData, w.ignoreSubtree = true →
                w.appendStack = HtmlNode.mk .ElementNode d a cs :: v.appendStack →
                traverseChildren w cs (depth + 1) = .ok w := fun w hw1 hw2 =>
              traverseChildren_suppressed cs w (depth + 1) (HtmlNode.mk .ElementNode d a cs)
                v.appendStack hw1 hw2 (fun c hc => sizeOf_children_lt .ElementNode d a cs c hc)
            by_cases hf : getAttr (HtmlNode.mk .ElementNode d a cs) FieldRefAttr = ""
            · simp [traverse, head, HtmlNode.type, HtmlNode.data, hflag, hdep, htag, hsrc, hf,
                transferAttrs_spec, hchild, tail, subtreeOk, nodeToks, nodeRefPairs,
                toksStr, toksStr_append, concatStrs, concatStrs_append, Tok.str, String.append_assoc, -String.reduceAppend]
            · simp [traverse, head, HtmlNode.type, HtmlNode.data, hflag, hdep, htag, hsrc, hf,
                transferAttrs_spec, hchild, tail, subtreeOk, nodeToks, nodeRefPairs, renderRef,
                toksStr, toksStr_append, concatStrs, concatStrs_append, Tok.str, String.append_assoc, -String.reduceAppend]
        · have hsub : subtreeOk (HtmlNode.mk .ElementNode d a cs) depth =
              childrenOk cs (depth + 1) := by
            simp [subtreeOk, hdep, htag]
          by_cases hf : getAttr (HtmlNode.mk .ElementNode d a cs) FieldRefAttr = ""
          · have hh : head v (HtmlNode.mk .ElementNode d a cs) depth = .ok
                { v with
                  appendStack := HtmlNode.mk .ElementNode d a cs :: v.appendStack,
                  domConstruction := v.domConstruction ++
                    (indent depth ++ (".append(" ++
                      (v.opts.ViewFactory ++ ("('" ++ (toLowerStr d ++ ("', doc)" ++
                        attrCallsStr (HtmlNode.mk .ElementNode d a cs))))))) } := by
              simp [head, HtmlNode.type, HtmlNode.data, hflag, hdep, htag, hf,
                transferAttrs_spec, String.append_assoc, -String.reduceAppend]
            have hchild := traverseChildren_spec cs
              { v with
                appendStack := HtmlNode.mk .ElementNode d a cs :: v.appendStack,
                domConstruction := v.domConstruction ++
                  (indent depth ++ (".append(" ++
                    (v.opts.ViewFactory ++ ("('" ++ (toLowerStr d ++ ("', doc)" ++
                      attrCallsStr (HtmlNode.mk .ElementNode d a cs))))))) }
              (depth + 1) hflag (by omega)
              (by
                intro m hm
                simp at hm
                rcases hm with hm | hm
                · rw [hm]
                  rfl
                · exact hel m hm)
            cases hco : childrenOk cs (depth + 1) with
            | false =>
              rw [hco] at hchild
              simp at hchild
              simp [traverse, HtmlNode.type, HtmlNode.data, hh, hchild, hsub, hco]
            | true =>
              rw [hco] at hchild
              simp at hchild
              simp [traverse, HtmlNode.type, HtmlNode.data, hh, hchild, tail, hsub, hco, hdep, htag,
                nodeToks, nodeRefPairs, hf, toksStr, toksStr_append, concatStrs, concatStrs_append, Tok.str,
                String.append_assoc, List.append_assoc, -String.reduceAppend]
          · have hh : head v (HtmlNode.mk .ElementNode d a cs) depth = .ok
                { v with
                  appendStack := HtmlNode.mk .ElementNode d a cs :: v.appendStack,
                  domConstruction := v.domConstruction ++
                    (indent depth ++ (".append(" ++
                      ("this." ++ (getAttr (HtmlNode.mk .ElementNode d a cs) FieldRefAttr ++
                        (" = " ++ (v.opts.ViewFactory ++ ("('" ++ (toLowerStr d ++ ("', doc)" ++
                          attrCallsStr (HtmlNode.mk .ElementNode d a cs)))))))))),
                  refs := v.refs ++ [getAttr (HtmlNode.mk .ElementNode d a cs) FieldRefAttr ++
                    ": " ++ v.opts.ViewBaseClass] } := by
              simp [head, HtmlNode.type, HtmlNode.data, hflag, hdep, htag, hf,
                transferAttrs_spec, String.append_assoc, -String.reduceAppend]
            have hchild := traverseChildren_spec cs
              { v with
                appendStack := HtmlNode.mk .ElementNode d a cs :: v.appendStack,
                domConstruction := v.domConstruction ++
                  (indent depth ++ (".append(" ++
                    ("this." ++ (getAttr (HtmlNode.mk .ElementNode d a cs) FieldRefAttr ++
                      (" = " ++ (v.opts.ViewFactory ++ ("('" ++ (toLowerStr d ++ ("', doc)" ++
                        attrCallsStr (HtmlNode.mk .ElementNode d a cs)))))))))),
                refs := v.refs ++ [getAttr (HtmlNode.mk .ElementNode d a cs) FieldRefAttr ++
                  ": " ++ v.opts.ViewBaseClass] }
              (depth + 1) hflag (by omega)
              (by
                intro m hm
                simp at hm
                rcases hm with hm | hm
                · rw [hm]
                  rfl
                · exact hel m hm)
            cases hco : childrenOk cs (depth + 1) with
            | false =>
              rw [hco] at hchild
              simp at hchild
              simp [traverse, HtmlNode.type, HtmlNode.data, hh, hchild, hsub, hco]
            | true =>
              rw [hco] at hchild
              simp [String.append_assoc] at hchild
              simp [traverse, HtmlNode.type, HtmlNode.data, hh, hchild, tail, hsub, hco, hdep, htag,
                nodeToks, nodeRefPairs, hf, renderRef, toksStr, toksStr_append, concatStrs, concatStrs_append, Tok.str,
                String.append_assoc, List.append_assoc, -String.reduceAppend]
    | TextNode =>
      have htail : ∀ w : visitorData, w.appendStack = v.appendStack →
          tail w (HtmlNode.mk .TextNode d a cs) depth = w := by
        intro w hw
        cases hs : v.appendStack with
        | nil => simp [tail, hw, hs]
        | cons top rest =>
          have htop : top.type = NodeType.ElementNode :=
            hel top (by rw [hs]; exact List.mem_cons_self top rest)
          have hne : top ≠ HtmlNode.mk .TextNode d a cs := by
            intro he
            rw [he] at htop
            simp [HtmlNode.type] at htop
          simp [tail, hw, hs, hne]
      by_cases ht : trimFunc d trimTextPred = ""
      · have hh : head v (HtmlNode.mk .TextNode d a cs) depth = .ok v := by
          simp [head, HtmlNode.type, HtmlNode.data, hflag, ht]
        have hchild := traverseChildren_spec cs v (depth + 1) hflag (by omega) hel
        cases hco : childrenOk cs (depth + 1) with
        | false =>
          rw [hco] at hchild
          simp at hchild
          simp [traverse, HtmlNode.type, HtmlNode.data, hh, hchild, subtreeOk, hco]
        | true =>
          rw [hco] at hchild
          simp at hchild
          simp [traverse, HtmlNode.type, HtmlNode.data, hh, hchild, htail, subtreeOk, hco,
            nodeToks, nodeRefPairs, ht, toksStr, toksStr_append, concatStrs, concatStrs_append, Tok.str, String.append_assoc]
      · have hh : head v (HtmlNode.mk .TextNode d a cs) depth = .ok
            { v with domConstruction := v.domConstruction ++
                (".appendText('" ++ (escapeText (stripNewlines d) ++ "')")) } := by
          simp [head, HtmlNode.type, HtmlNode.data, hflag, ht, String.append_assoc,
            -String.reduceAppend]
        have hchild := traverseChildren_spec cs
          { v with domConstruction := v.domConstruction ++
              (".appendText('" ++ (escapeText (stripNewlines d) ++ "')")) }
          (depth + 1) hflag (by omega) (fun m hm => hel m hm)
        cases hco : childrenOk cs (depth + 1) with
        | false =>
          rw [hco] at hchild
          simp at hchild
          simp [traverse, HtmlNode.type, HtmlNode.data, hh, hchild, subtreeOk, hco]
        | true =>
          rw [hco] at hchild
          simp at hchild
          simp [traverse, HtmlNode.type, HtmlNode.data, hh, hchild, htail, subtreeOk, hco,
            nodeToks, nodeRefPairs, ht, toksStr, toksStr_append, concatStrs, concatStrs_append, Tok.str, String.append_assoc,
            -String.reduceAppend]
    | ErrorNode =>
      have htail : ∀ w : visitorData, w.appendStack = v.appendStack →
          tail w (HtmlNode.mk .ErrorNode d a cs) depth = w := by
        intro w hw
        cases hs : v.appendStack with
        | nil => simp [tail, hw, hs]
        | cons top rest =>
          have htop : top.type = NodeType.ElementNode :=
            hel top (by rw [hs]; exact List.mem_cons_self top rest)
          have hne : top ≠ HtmlNode.mk .ErrorNode d a cs := by
            intro he
            rw [he] at htop
            simp [HtmlNode.type] at htop
          simp [tail, hw, hs, hne]
      have hh : head v (HtmlNode.mk .ErrorNode d a cs) depth = .ok v := by
        simp [head, HtmlNode.type, hflag]
      have hchild := traverseChildren_spec cs v (depth + 1) hflag (by omega) hel
      cases hco : childrenOk cs (depth + 1) with
      | false =>
        rw [hco] at hchild
        simp at hchild
        simp [traverse, HtmlNode.type, HtmlNode.data, hh, hchild, subtreeOk, hco]
      | true =>
        rw [hco] at hchild
        simp at hchild
        simp [traverse, HtmlNode.type, HtmlNode.data, hh, hchild, htail, subtreeOk, hco,
          nodeToks, nodeRefPairs]
    | DocumentNode =>
      have htail : ∀ w : visitorData, w.appendStack = v.appendStack →
          tail w (HtmlNode.mk .DocumentNode d a cs) depth = w := by
        intro w hw
        cases hs : v.appendStack with
        | nil => simp [tail, hw, hs]
        | cons top rest =>
          have htop : top.type = NodeType.ElementNode :=
            hel top (by rw [hs]; exact List.mem_cons_self top rest)
          have hne : top ≠ HtmlNode.mk .DocumentNode d a cs := by
            intro he
            rw [he] at htop
            simp [HtmlNode.type] at htop
          simp [tail, hw, hs, hne]
      have hh : head v (HtmlNode.mk .DocumentNode d a cs) depth = .ok v := by
        simp [head, HtmlNode.type, hflag]
      have hchild := traverseChildren_spec cs v (depth + 1) hflag (by omega) hel
      cases hco : childrenOk cs (depth + 1) with
      | false =>
        rw [hco] at hchild
        simp at hchild
        simp [traverse, HtmlNode.type, HtmlNode.data, hh, hchild, subtreeOk, hco]
      | true =>
        rw [hco] at hchild
        simp at hchild
        simp [traverse, HtmlNode.type, HtmlNode.data, hh, hchild, htail, subtreeOk, hco,
          nodeToks, nodeRefPairs]
    | CommentNode =>
      have htail : ∀ w : visitorData, w.appendStack = v.appendStack →
          tail w (HtmlNode.mk .CommentNode d a cs) depth = w := by
        intro w hw
        cases hs : v.appendStack with
        | nil => simp [tail, hw, hs]
        | cons top rest =>
          have htop : top.type = NodeType.ElementNode :=
            hel top (by rw [hs]; exact List.mem_cons_self top rest)
          have hne : top ≠ HtmlNode.mk .CommentNode d a cs := by
            intro he
            rw [he] at htop
            simp [HtmlNode.type] at htop
          simp [tail, hw, hs, hne]
      have hh : head v (HtmlNode.mk .CommentNode d a cs) depth = .ok v := by
        simp [head, HtmlNode.type, hflag]
      have hchild := traverseChildren_spec cs v (depth + 1) hflag (by omega) hel
      cases hco : childrenOk cs (depth + 1) with
      | false =>
        rw [hco] at hchild
        simp at hchild
        simp [traverse, HtmlNode.type, HtmlNode.data, hh, hchild, subtreeOk, hco]
      | true =>
        rw [hco] at hchild
        simp at hchild
        simp [traverse, HtmlNode.type, HtmlNode.data, hh, hchild, htail, subtreeOk, hco,
          nodeToks, nodeRefPairs]
    | DoctypeNode =>
      have htail : ∀ w : visitorData, w.appendStack = v.appendStack →
          tail w (HtmlNode.mk .DoctypeNode d a cs) depth = w := by
        intro w hw
        cases hs : v.appendStack with
        | nil => simp [tail, hw, hs]
        | cons top rest =>
          have htop : top.type = NodeType.ElementNode :=
            hel top (by rw [hs]; exact List.mem_cons_self top rest)
          have hne : top ≠ HtmlNode.mk .DoctypeNode d a cs := by
            intro he
            rw [he] at htop
            simp [HtmlNode.type] at htop
          simp [tail, hw, hs, hne]
      have hh : head v (HtmlNode.mk .DoctypeNode d a cs) depth = .ok v := by
        simp [head, HtmlNode.type, hflag]
      have hchild := traverseChildren_spec cs v (depth + 1) hflag (by omega) hel
      cases hco : childrenOk cs (depth + 1) with
      | false =>
        rw [hco] at hchild
        simp at hchild
        simp [traverse, HtmlNode.type, HtmlNode.data, hh, hchild, subtreeOk, hco]
      | true =>
        rw [hco] at hchild
        simp at hchild
        simp [traverse, HtmlNode.type, HtmlNode.data, hh, hchild, htail, subtreeOk, hco,
          nodeToks, nodeRefPairs]

theorem traverseChildren_spec (cs : List HtmlNode) (v : visitorData) (depth : Nat)
    (hflag : v.ignoreSubtree = false)
    (hdep : depth ≠ 0)
    (hel : ∀ m ∈ v.appendStack, m.type = NodeType.ElementNode) :
    traverseChildren v cs depth =
      (if childrenOk cs depth = true then
        .ok { v with
          domConstruction := v.domConstruction ++
            toksStr (childToks v.opts v.viewName v.forceDebugIds cs depth),
          refs := v.refs ++ (childRefPairs v.opts cs depth).map renderRef,
          ignoreSubtree := false }
      else .error errNoSrc) := by
  match cs with
  | [] =>
    cases v with
    | mk o ct vn out dom ign fd r st =>
      simp at hflag
      simp [traverseChildren, childrenOk, childToks, childRefPairs, toksStr, concatStrs, hflag]
  | c :: cs' =>
    have hc := traverse_spec c v depth hflag (fun h => absurd h hdep) hel
    cases hok : subtreeOk c depth with
    | false =>
      rw [hok] at hc
      simp at hc
      simp [traverseChildren, hc, childrenOk, hok]
    | true =>
      rw [hok] at hc
      simp at hc
      have hrest := traverseChildren_spec cs'
        { v with
          domConstruction := v.domConstruction ++
            toksStr (nodeToks v.opts v.viewName v.forceDebugIds c depth),
          refs := v.refs ++ (nodeRefPairs v.opts c depth).map renderRef,
          ignoreSubtree := false }
        depth rfl hdep (fun m hm => hel m hm)
      cases hco : childrenOk cs' depth with
      | false =>
        rw [hco] at hrest
        simp at hrest
        simp [traverseChildren, hc, hrest, childrenOk, hok, hco]
      | true =>
        rw [hco] at hrest
        simp at hrest
        simp [traverseChildren, hc, hrest, childrenOk, hok, hco, childToks, childRefPairs,
          toksStr_append, String.append_assoc, List.append_assoc]

end

/-- Sequencing lemma for the parenthesis check. -/
theorem balCheck_append (a b : List Tok) (k : Nat) :
    balCheck (a ++ b) k =
      (match balCheck a k with
       | none => none
       | some j => balCheck b j) := by
  induction a generalizing k with
  | nil => simp [balCheck]
  | cons t rest ih =>
    cases t with
    | openAppend => simp [balCheck, ih]
    | closeAppend =>
      by_cases hk : k = 0
      · simp [balCheck, hk]
      · simp [balCheck, hk, ih]
    | fieldAssign name => simp [balCheck, ih]
    | lit s => simp [balCheck, ih]

mutual

/-- The construction tokens of any node are balanced: the parenthesis check
passes through any counter unchanged — every opened `.append(` has exactly
one matching `)` within the node's own tokens. -/
theorem balCheck_nodeToks (o : GeneratorOptions) (vn : String) (fd : Bool)
    (n : HtmlNode) (depth k : Nat) :
    balCheck (nodeToks o vn fd n depth) k = some k := by
  match n with
  | .mk ty d a cs =>
    cases ty with
    | ElementNode =>
      by_cases hdep : depth = 0
      · subst hdep
        simp [nodeToks, balCheck, balCheck_childToks o vn fd cs 1 k]
      · by_cases htag : toLowerStr d = "tomato"
        · by_cases hf : getAttr (HtmlNode.mk .ElementNode d a cs) FieldRefAttr = ""
          · simp [nodeToks, hdep, htag, hf, balCheck]
          · simp [nodeToks, hdep, htag, hf, balCheck]
        · by_cases hf : getAttr (HtmlNode.mk .ElementNode d a cs) FieldRefAttr = ""
          · simp [nodeToks, hdep, htag, hf, balCheck, balCheck_append,
              balCheck_childToks o vn fd cs (depth + 1) (k + 1)]
          · simp [nodeToks, hdep, htag, hf, balCheck, balCheck_append,
              balCheck_childToks o vn fd cs (depth + 1) (k + 1)]
    | TextNode =>
      by_cases ht : trimFunc d trimTextPred = ""
      · simp [nodeToks, ht, balCheck, balCheck_childToks o vn fd cs (depth + 1) k]
      · simp [nodeToks, ht, balCheck, balCheck_append,
          balCheck_childToks o vn fd cs (depth + 1) k]
    | ErrorNode => simp [nodeToks, balCheck_childToks o vn fd cs (depth + 1) k]
    | DocumentNode => simp [nodeToks, balCheck_childToks o vn fd cs (depth + 1) k]
    | CommentNode => simp [nodeToks, balCheck_childToks o vn fd cs (depth + 1) k]
    | DoctypeNode => simp [nodeToks, balCheck_childToks o vn fd cs (depth + 1) k]

theorem balCheck_childToks (o : GeneratorOptions) (vn : String) (fd : Bool)
    (cs : List HtmlNode) (depth k : Nat) :
    balCheck (childToks o vn fd cs depth) k = some k := by
  match cs with
  | [] => rfl
  | c :: cs' =>
    simp [childToks, balCheck_append, balCheck_nodeToks o vn fd c depth k,
      balCheck_childToks o vn fd cs' depth k]

end

mutual

/-- There is exactly one constructor field assignment per queued ref pair:
the multiplicity of `this.x = ` tokens equals the multiplicity of `x` among
the queued field names. -/
theorem count_fieldAssign_nodeToks (o : GeneratorOptions) (vn : String) (fd : Bool)
    (n : HtmlNode) (depth : Nat) (x : String) :
    (nodeToks o vn fd n depth).count (Tok.fieldAssign x) =
      ((nodeRefPairs o n depth).map Prod.fst).count x := by
  match n with
  | .mk ty d a cs =>
    cases ty with
    | ElementNode =>
      by_cases hdep : depth = 0
      · subst hdep
        simp [nodeToks, nodeRefPairs, List.count_cons,
          count_fieldAssign_childToks o vn fd cs 1 x]
      · by_cases htag : toLowerStr d = "tomato"
        · by_cases hf : getAttr (HtmlNode.mk .ElementNode d a cs) FieldRefAttr = ""
          · simp [nodeToks, nodeRefPairs, hdep, htag, hf, List.count_cons]
          · by_cases hx : getAttr (HtmlNode.mk .ElementNode d a cs) FieldRefAttr = x
            · have hfx : ¬x = "" := hx ▸ hf
              simp [nodeToks, nodeRefPairs, hdep, htag, hf, hx, hfx, List.count_cons]
            · simp [nodeToks, nodeRefPairs, hdep, htag, hf, hx, List.count_cons]
        · by_cases hf : getAttr (HtmlNode.mk .ElementNode d a cs) FieldRefAttr = ""
          · simp [nodeToks, nodeRefPairs, hdep, htag, hf, List.count_cons, List.count_append,
              count_fieldAssign_childToks o vn fd cs (depth + 1) x]
          · by_cases hx : getAttr (HtmlNode.mk .ElementNode d a cs) FieldRefAttr = x
            · have hfx : ¬x = "" := hx ▸ hf
              simp [nodeToks, nodeRefPairs, hdep, htag, hf, hx, hfx, List.count_cons, List.count_append,
                count_fieldAssign_childToks o vn fd cs (depth + 1) x]
            · simp [nodeToks, nodeRefPairs, hdep, htag, hf, hx, List.count_cons, List.count_append,
                count_fieldAssign_childToks o vn fd cs (depth + 1) x]
    | TextNode =>
      by_cases ht : trimFunc d trimTextPred = ""
      · simp [nodeToks, nodeRefPairs, ht, count_fieldAssign_childToks o vn fd cs (depth + 1) x]
      · simp [nodeToks, nodeRefPairs, ht, List.count_cons, List.count_append,
          count_fieldAssign_childToks o vn fd cs (depth + 1) x]
    | ErrorNode =>
      simp [nodeToks, nodeRefPairs, count_fieldAssign_childToks o vn fd cs (depth + 1) x]
    | DocumentNode =>
      simp [nodeToks, nodeRefPairs, count_fieldAssign_childToks o vn fd cs (depth + 1) x]
    | CommentNode =>
      simp [nodeToks, nodeRefPairs, count_fieldAssign_childToks o vn fd cs (depth + 1) x]
    | DoctypeNode =>
      simp [nodeToks, nodeRefPairs, count_fieldAssign_childToks o vn fd cs (depth + 1) x]

theorem count_fieldAssign_childToks (o : GeneratorOptions) (vn : String) (fd : Bool)
    (cs : List HtmlNode) (depth : Nat) (x : String) :
    (childToks o vn fd cs depth).count (Tok.fieldAssign x) =
      ((childRefPairs o cs depth).map Prod.fst).count x := by
  match cs with
  | [] => rfl
  | c :: cs' =>
    simp [childToks, childRefPairs, List.count_append,
      count_fieldAssign_nodeToks o vn fd c depth x,
      count_fieldAssign_childToks o vn fd cs' depth x]

end

/-- **C10.** For any file traversal that starts un-suppressed with an
element-only stack (empty when starting at the root) and succeeds: the append
stack is restored to its initial value (every pushed node was popped at its
own exit), the suppression flag ends clear, the construction buffer grew by
exactly the node's token string, and the parenthesis check over those tokens
passes through any counter — every emitted `.append(` has exactly one
matching `)` emitted by the pops. -/
theorem claim_C10_stack_invariant (v : visitorData) (n : HtmlNode) (depth : Nat)
    (v' : visitorData)
    (hflag : v.ignoreSubtree = false)
    (hstack0 : depth = 0 → v.appendStack = [])
    (hel : ∀ m ∈ v.appendStack, m.type = NodeType.ElementNode)
    (hrun : traverse v n depth = .ok v') :
    v'.appendStack = v.appendStack ∧
    v'.ignoreSubtree = false ∧
    v'.domConstruction = v.domConstruction ++
      toksStr (nodeToks v.opts v.viewName v.forceDebugIds n depth) ∧
    v'.refs = v.refs ++ (nodeRefPairs v.opts n depth).map renderRef ∧
    (∀ k, balCheck (nodeToks v.opts v.viewName v.forceDebugIds n depth) k = some k) := by
  have h := traverse_spec n v depth hflag hstack0 hel
  cases hok : subtreeOk n depth with
  | false =>
    rw [hok] at h
    simp at h
    rw [h] at hrun
    cases hrun
  | true =>
    rw [hok] at h
    simp at h
    rw [h] at hrun
    have hv : v' = { v with
        domConstruction := v.domConstruction ++
          toksStr (nodeToks v.opts v.viewName v.forceDebugIds n depth),
        refs := v.refs ++ (nodeRefPairs v.opts n depth).map renderRef,
        ignoreSubtree := false } := by
      cases hrun
      rfl
    subst hv
    exact ⟨rfl, rfl, rfl, rfl, fun k => balCheck_nodeToks v.opts v.viewName v.forceDebugIds n depth k⟩

/-- **C10 witness.** A concrete two-element template: the run succeeds, the
final stack is empty, the flag is clear, the buffer equals the token string,
and the parenthesis check passes. -/
theorem claim_C10_witness :
    traverse sampleVisitor
        (HtmlNode.mk .ElementNode "div" [] [HtmlNode.mk .ElementNode "span" [] []]) 0 =
      .ok { sampleVisitor with
        domConstruction :=
          "\n    super(doc.createElement('div'));\n\n    this\n      .append(createView('span', doc))" } ∧
    balCheck (nodeToks sampleOpts "FooView" false
      (HtmlNode.mk .ElementNode "div" [] [HtmlNode.mk .ElementNode "span" [] []]) 0) 0 = some 0 := by
  have hrun : traverse sampleVisitor
      (HtmlNode.mk .ElementNode "div" [] [HtmlNode.mk .ElementNode "span" [] []]) 0 =
    .ok { sampleVisitor with
      domConstruction :=
        "\n    super(doc.createElement('div'));\n\n    this\n      .append(createView('span', doc))" } := by
    decide
  refine ⟨hrun, ?_⟩
  exact (claim_C10_stack_invariant sampleVisitor
    (HtmlNode.mk .ElementNode "div" [] [HtmlNode.mk .ElementNode "span" [] []]) 0 _
    rfl (fun _ => rfl) (fun m hm => by cases hm) hrun).2.2.2.2 0

/-- **C8 (amended).** For a successful root traversal whose queued field
names are pairwise distinct: the final ref list is exactly the pre-order
rendering of the (name, declared type) pairs — one declaration per marked
node, in first-encountered order, typed with the referenced view class for a
`tomato` and the base view class otherwise — and for each pair the name
occurs exactly once among the declarations and the constructor tokens contain
exactly one assignment to that field. -/
theorem claim_C8_field_refs (v : visitorData) (n : HtmlNode) (v' : visitorData)
    (hflag : v.ignoreSubtree = false)
    (hstack : v.appendStack = [])
    (hrun : traverse v n 0 = .ok v')
    (hnodup : ((nodeRefPairs v.opts n 0).map Prod.fst).Nodup) :
    v'.refs = v.refs ++ (nodeRefPairs v.opts n 0).map renderRef ∧
    (∀ p ∈ nodeRefPairs v.opts n 0,
      ((nodeRefPairs v.opts n 0).map Prod.fst).count p.1 = 1 ∧
      (nodeToks v.opts v.viewName v.forceDebugIds n 0).count (Tok.fieldAssign p.1) = 1) := by
  have h := claim_C10_stack_invariant v n 0 v' hflag (fun _ => hstack)
    (fun m hm => by rw [hstack] at hm; cases hm) hrun
  refine ⟨h.2.2.2.1, ?_⟩
  intro p hp
  have hmem : p.1 ∈ (nodeRefPairs v.opts n 0).map Prod.fst :=
    List.mem_map_of_mem Prod.fst hp
  have hcount : ((nodeRefPairs v.opts n 0).map Prod.fst).count p.1 = 1 :=
    List.count_eq_one_of_mem hnodup hmem
  exact ⟨hcount, by rw [count_fieldAssign_nodeToks]; exact hcount⟩

/-- **C8 counterexample.** Two sibling nodes carrying the same field marker
`_ref="x"`: the generated class declares *two* fields named `x` and the
constructor assigns to `this.x` twice, so "declares exactly one field whose
name equals the marker's value" and "assigns to that field exactly once" fail
as stated. -/
theorem claim_C8_counterexample :
    (match traverse sampleVisitor
        (HtmlNode.mk .ElementNode "div" []
          [HtmlNode.mk .ElementNode "span" [⟨"", "_ref", "x"⟩] [],
           HtmlNode.mk .ElementNode "span" [⟨"", "_ref", "x"⟩] []]) 0 with
      | .ok v2 => v2.refs
      | .error _ => []) = ["x: View", "x: View"] ∧
    ((nodeRefPairs sampleOpts
        (HtmlNode.mk .ElementNode "div" []
          [HtmlNode.mk .ElementNode "span" [⟨"", "_ref", "x"⟩] [],
           HtmlNode.mk .ElementNode "span" [⟨"", "_ref", "x"⟩] []]) 0).map Prod.fst).count "x" = 2 ∧
    (nodeToks sampleOpts "FooView" false
        (HtmlNode.mk .ElementNode "div" []
          [HtmlNode.mk .ElementNode "span" [⟨"", "_ref", "x"⟩] [],
           HtmlNode.mk .ElementNode "span" [⟨"", "_ref", "x"⟩] []]) 0).count (Tok.fieldAssign "x") = 2 := by
  have h := traverse_spec
    (HtmlNode.mk .ElementNode "div" []
      [HtmlNode.mk .ElementNode "span" [⟨"", "_ref", "x"⟩] [],
       HtmlNode.mk .ElementNode "span" [⟨"", "_ref", "x"⟩] []])
    sampleVisitor 0 rfl (fun _ => rfl) (fun m hm => by cases hm)
  have hok : subtreeOk
      (HtmlNode.mk .ElementNode "div" []
        [HtmlNode.mk .ElementNode "span" [⟨"", "_ref", "x"⟩] [],
         HtmlNode.mk .ElementNode "span" [⟨"", "_ref", "x"⟩] []]) 0 = true := by decide
  rw [hok] at h
  simp at h
  refine ⟨?_, by decide, by decide⟩
  rw [h]
  decide

/-- **C8 witness.** A template with two distinct markers: declarations appear
in pre-order with their types (`BarView` for the nested template, `View`
otherwise), and the constructor tokens assign to `label` exactly once. -/
theorem claim_C8_witness :
    (match traverse sampleVisitor
        (HtmlNode.mk .ElementNode "div" []
          [HtmlNode.mk .ElementNode "span" [⟨"", "_ref", "label"⟩] [],
           HtmlNode.mk .ElementNode "tomato" [⟨"", "src", "bar.htmto"⟩, ⟨"", "_ref", "sub"⟩] []]) 0 with
      | .ok v2 => v2.refs
      | .error _ => []) = ["label: View", "sub: BarView"] ∧
    (nodeToks sampleOpts "FooView" false
        (HtmlNode.mk .ElementNode "div" []
          [HtmlNode.mk .ElementNode "span" [⟨"", "_ref", "label"⟩] [],
           HtmlNode.mk .ElementNode "tomato" [⟨"", "src", "bar.htmto"⟩, ⟨"", "_ref", "sub"⟩] []]) 0).count
      (Tok.fieldAssign "label") = 1 := by
  have h := traverse_spec
    (HtmlNode.mk .ElementNode "div" []
      [HtmlNode.mk .ElementNode "span" [⟨"", "_ref", "label"⟩] [],
       HtmlNode.mk .ElementNode "tomato" [⟨"", "src", "bar.htmto"⟩, ⟨"", "_ref", "sub"⟩] []])
    sampleVisitor 0 rfl (fun _ => rfl) (fun m hm => by cases hm)
  have hok : subtreeOk
      (HtmlNode.mk .ElementNode "div" []
        [HtmlNode.mk .ElementNode "span" [⟨"", "_ref", "label"⟩] [],
         HtmlNode.mk .ElementNode "tomato" [⟨"", "src", "bar.htmto"⟩, ⟨"", "_ref", "sub"⟩] []]) 0 = true := by
    decide
  rw [hok] at h
  simp at h
  have hc8 := claim_C8_field_refs sampleVisitor
    (HtmlNode.mk .ElementNode "div" []
      [HtmlNode.mk .ElementNode "span" [⟨"", "_ref", "label"⟩] [],
       HtmlNode.mk .ElementNode "tomato" [⟨"", "src", "bar.htmto"⟩, ⟨"", "_ref", "sub"⟩] []]) _
    rfl rfl h (by decide)
  constructor
  · rw [h]
    decide
  · exact (hc8.2 ("label", "View") (by decide)).2

end Tomato
